import Mathlib

/-!
Verification of the TextIOC character-input and line-wrapping engine.

The repository ships the library header (`textioc.h`), the assembly source of
the C runtime routine `_isdigit`, and two example programs.  The bodies of the
`textio_*` library routines themselves are not part of the sources at hand, so
the Input Data Structure (IDS) state machine and the text layout engine are
modelled from the specification; `_isdigit` and the example routine
`switch_keymaps` are embedded directly from their sources.

Codepoints, raw key codes and pixel positions are single-byte / 24-bit machine
quantities in the original; they are modelled as `Nat`, with explicit masking
where the machine width matters (`isdigit`).
-/

namespace TextIOC

/-- Modelled from the spec: a keymap is a 57-byte table, one indicator byte
followed by 56 decode slots; a zero slot means "no mapping". -/
structure Keymap where
  indicator : Nat
  slots : List Nat
  deriving Repr, DecidableEq

/-- Modelled from the spec: the process-wide configuration the input engine
reads — the four configurable control-key bindings, the backend adapter's
glyph-width query, and the timed-input timeout sentinel key code. -/
structure TextioConfig where
  clearKey : Nat
  backspaceKey : Nat
  cursorLeftKey : Nat
  cursorRightKey : Nat
  width : Nat → Nat
  timeoutCode : Nat

/-- Modelled from the spec: the Input Data Structure (IDS).  It owns a data
buffer of fixed capacity, a pixel cursor with a logical edit index, weak
references to its keymaps with a current-index selector, a countdown timer and
the status flags (locked, buffer-full, program-name mode).  `startX` is the
cursor x-position the IDS was created with, to which the clear action resets
the pixel cursor. -/
structure IDS where
  capacity : Nat
  startX : Nat
  buffer : List Nat
  cursorIdx : Nat
  cursorX : Nat
  keymaps : List Keymap
  currKeymapIdx : Nat
  timer : Nat
  locked : Bool
  bufferFull : Bool
  prgmNameFlag : Bool

/-- Insert an element at position `i`, appending at the end when `i` is past
the end of the list (the edit position never exceeds the buffer length in
well-formed states). -/
def insertAt (l : List Nat) (i : Nat) (x : Nat) : List Nat :=
  l.take i ++ x :: l.drop i

/-- Remove the element at position `i`; lists shorter than `i + 1` lose their
tail beyond `i` only (no change when `i` is out of range). -/
def removeAt (l : List Nat) (i : Nat) : List Nat :=
  l.take i ++ l.drop (i + 1)

theorem insertAt_length (l : List Nat) (i x : Nat) :
    (insertAt l i x).length = l.length + 1 := by
  simp [insertAt]
  omega

theorem removeAt_length_le (l : List Nat) (i : Nat) :
    (removeAt l i).length ≤ l.length := by
  simp [removeAt]
  omega

/-- Modelled from the spec: a numeral codepoint (ASCII digits). -/
def isNumeral (cp : Nat) : Bool :=
  decide (48 ≤ cp ∧ cp ≤ 57)

/-- The keymap currently selected by the IDS. -/
def currentKeymap (ids : IDS) : Keymap :=
  ids.keymaps.getD ids.currKeymapIdx { indicator := 0, slots := [] }

/-- Modelled from the spec: decode a raw key against a keymap.  Raw key codes
start at 1 and index the 56 decode slots; 0 means "no mapping" (malformed or
unmapped keys decode to 0). -/
def decodeKey (km : Keymap) (raw : Nat) : Nat :=
  if raw = 0 then 0 else km.slots.getD (raw - 1) 0

/-- Whether a raw key is bound to one of the four control actions. -/
def isControlKey (cfg : TextioConfig) (raw : Nat) : Bool :=
  decide (raw = cfg.clearKey) || decide (raw = cfg.backspaceKey) ||
  decide (raw = cfg.cursorLeftKey) || decide (raw = cfg.cursorRightKey)

/-- Modelled from the spec: the clear action — empties the buffer, resets the
cursor to buffer start, clears the buffer-full flag. -/
def clearAction (ids : IDS) : IDS :=
  { ids with buffer := [], cursorIdx := 0, cursorX := ids.startX,
             bufferFull := false }

/-- Modelled from the spec: the backspace action — at buffer start a no-op;
otherwise removes the codepoint immediately before the cursor, shifts the
trailing content left by one, moves the pixel cursor back by that character's
width and clears the buffer-full flag. -/
def backspaceAction (cfg : TextioConfig) (ids : IDS) : IDS :=
  if ids.cursorIdx = 0 then ids
  else
    { ids with
      buffer := removeAt ids.buffer (ids.cursorIdx - 1),
      cursorIdx := ids.cursorIdx - 1,
      cursorX := ids.cursorX - cfg.width (ids.buffer.getD (ids.cursorIdx - 1) 0),
      bufferFull := false }

/-- Modelled from the spec: cursor-left — moves the edit position one
character left without mutating the buffer, clamped at buffer start. -/
def moveLeftAction (cfg : TextioConfig) (ids : IDS) : IDS :=
  if ids.cursorIdx = 0 then ids
  else
    { ids with
      cursorIdx := ids.cursorIdx - 1,
      cursorX := ids.cursorX - cfg.width (ids.buffer.getD (ids.cursorIdx - 1) 0) }

/-- Modelled from the spec: cursor-right — moves the edit position one
character right without mutating the buffer, clamped at buffer end. -/
def moveRightAction (cfg : TextioConfig) (ids : IDS) : IDS :=
  if ids.buffer.length ≤ ids.cursorIdx then ids
  else
    { ids with
      cursorIdx := ids.cursorIdx + 1,
      cursorX := ids.cursorX + cfg.width (ids.buffer.getD ids.cursorIdx 0) }

/-- Modelled from the spec: printable insertion.  A full buffer silently drops
the keystroke; in program-name mode a numeral may not become the first
character of the buffer (no-op); otherwise the codepoint is inserted at the
edit position, the cursor advances by the glyph's width, and the buffer-full
flag is set when capacity is reached. -/
def insertAction (cfg : TextioConfig) (ids : IDS) (cp : Nat) : IDS :=
  if ids.bufferFull then ids
  else if ids.prgmNameFlag && decide (ids.buffer = []) && isNumeral cp then ids
  else
    { ids with
      buffer := insertAt ids.buffer ids.cursorIdx cp,
      cursorIdx := ids.cursorIdx + 1,
      cursorX := ids.cursorX + cfg.width cp,
      bufferFull := decide ((insertAt ids.buffer ids.cursorIdx cp).length = ids.capacity) }

/-- Modelled from the spec: `process_key(ids, raw_key) -> key_code`, the core
of `textio_Input`.  A locked IDS is never mutated; control keys take their
actions; an unmapped key is a no-op; a mapped key is inserted.  The raw key
code is always returned to the caller. -/
def processKey (cfg : TextioConfig) (ids : IDS) (raw : Nat) : IDS × Nat :=
  if ids.locked then (ids, raw)
  else if raw = cfg.clearKey then (clearAction ids, raw)
  else if raw = cfg.backspaceKey then (backspaceAction cfg ids, raw)
  else if raw = cfg.cursorLeftKey then (moveLeftAction cfg ids, raw)
  else if raw = cfg.cursorRightKey then (moveRightAction cfg ids, raw)
  else if decodeKey (currentKeymap ids) raw = 0 then (ids, raw)
  else (insertAction cfg ids (decodeKey (currentKeymap ids) raw), raw)

/-- Modelled from the spec: one no-keypress second of `textio_TimedInput` —
the countdown timer is decremented and, when it has reached zero, the timeout
sentinel key code is returned with no edit performed; otherwise the call
returns control with key code 0. -/
def timedNoKey (cfg : TextioConfig) (ids : IDS) : IDS × Nat :=
  ({ ids with timer := ids.timer - 1 },
   if ids.timer - 1 = 0 then cfg.timeoutCode else 0)

/-- Modelled from the spec: `textio_TimedInput`, identical decode/edit logic
to `textio_Input` when a key event arrives within the second, and a timer tick
otherwise. -/
def timedInput (cfg : TextioConfig) (ids : IDS) (ev : Option Nat) : IDS × Nat :=
  match ev with
  | some raw => processKey cfg ids raw
  | none => timedNoKey cfg ids

/-- Run a sequence of keystrokes through `processKey`. -/
def runKeys (cfg : TextioConfig) (ids : IDS) (keys : List Nat) : IDS :=
  keys.foldl (fun s k => (processKey cfg s k).1) ids

/-- `keys` is a sequence of successful printable insertions from `ids`: each
keystroke grows the buffer by exactly one codepoint. -/
def succInsertions (cfg : TextioConfig) : IDS → List Nat → Bool
  | _, [] => true
  | ids, k :: ks =>
      let ids' := (processKey cfg ids k).1
      decide (ids'.buffer.length = ids.buffer.length + 1) && succInsertions cfg ids' ks

/-- The buffer invariant of the spec: the length never exceeds the capacity
and the buffer-full flag is true exactly when the length equals capacity. -/
def bufInv (ids : IDS) : Prop :=
  ids.buffer.length ≤ ids.capacity ∧
  (ids.bufferFull = true ↔ ids.buffer.length = ids.capacity)

instance (ids : IDS) : Decidable (bufInv ids) := by
  unfold bufInv
  infer_instance

/-- The full well-formedness invariant of a reachable IDS: the logical edit
position lies within the buffer, and the buffer invariant holds. -/
def idsInv (ids : IDS) : Prop :=
  ids.cursorIdx ≤ ids.buffer.length ∧ bufInv ids

instance (ids : IDS) : Decidable (idsInv ids) := by
  unfold idsInv
  infer_instance

theorem capacity_processKey (cfg : TextioConfig) (ids : IDS) (raw : Nat) :
    (processKey cfg ids raw).1.capacity = ids.capacity := by
  unfold processKey clearAction backspaceAction moveLeftAction moveRightAction insertAction
  repeat' split
  all_goals rfl

theorem idsInv_clearAction (ids : IDS) (hcap : 0 < ids.capacity) :
    idsInv (clearAction ids) := by
  simp [idsInv, bufInv, clearAction]
  omega

theorem idsInv_backspaceAction (cfg : TextioConfig) (ids : IDS)
    (hcap : 0 < ids.capacity) (h : idsInv ids) :
    idsInv (backspaceAction cfg ids) := by
  obtain ⟨hc, h1, h2⟩ := h
  unfold backspaceAction
  split
  · exact ⟨hc, h1, h2⟩
  · refine ⟨?_, ?_, ?_⟩
    · simp [removeAt]
      omega
    · simp [removeAt]
      omega
    · simp [removeAt]
      omega

theorem idsInv_moveLeftAction (cfg : TextioConfig) (ids : IDS) (h : idsInv ids) :
    idsInv (moveLeftAction cfg ids) := by
  obtain ⟨hc, h1, h2⟩ := h
  unfold moveLeftAction
  split
  · exact ⟨hc, h1, h2⟩
  · exact ⟨by simp; omega, h1, h2⟩

theorem idsInv_moveRightAction (cfg : TextioConfig) (ids : IDS) (h : idsInv ids) :
    idsInv (moveRightAction cfg ids) := by
  obtain ⟨hc, h1, h2⟩ := h
  unfold moveRightAction
  split
  · exact ⟨hc, h1, h2⟩
  · rename_i hlt
    exact ⟨by simp; omega, h1, h2⟩

theorem idsInv_insertAction (cfg : TextioConfig) (ids : IDS) (cp : Nat)
    (h : idsInv ids) :
    idsInv (insertAction cfg ids cp) := by
  obtain ⟨hc, h1, h2⟩ := h
  unfold insertAction
  split
  · exact ⟨hc, h1, h2⟩
  · split
    · exact ⟨hc, h1, h2⟩
    · rename_i hfull _
      have hne : ¬ ids.buffer.length = ids.capacity := by
        intro he
        exact hfull (h2.mpr he)
      refine ⟨?_, ?_, ?_⟩
      · simp [insertAt_length]
        omega
      · simp [insertAt_length]
        omega
      · simp [insertAt_length]

theorem idsInv_processKey (cfg : TextioConfig) (ids : IDS) (raw : Nat)
    (hcap : 0 < ids.capacity) (h : idsInv ids) :
    idsInv (processKey cfg ids raw).1 := by
  unfold processKey
  repeat' split
  · exact h
  · exact idsInv_clearAction ids hcap
  · exact idsInv_backspaceAction cfg ids hcap h
  · exact idsInv_moveLeftAction cfg ids h
  · exact idsInv_moveRightAction cfg ids h
  · exact h
  · exact idsInv_insertAction cfg ids _ h

theorem processKey_full_noop (cfg : TextioConfig) (ids : IDS) (raw : Nat)
    (hctrl : isControlKey cfg raw = false) (hfull : ids.bufferFull = true) :
    (processKey cfg ids raw).1 = ids := by
  simp only [isControlKey, Bool.or_eq_false_iff, decide_eq_false_iff_not] at hctrl
  obtain ⟨⟨⟨n1, n2⟩, n3⟩, n4⟩ := hctrl
  unfold processKey
  simp only [if_neg n1, if_neg n2, if_neg n3, if_neg n4]
  split
  · rfl
  · split
    · rfl
    · show (insertAction cfg ids _, raw).1 = ids
      simp [insertAction, hfull]

theorem runKeys_nil (cfg : TextioConfig) (ids : IDS) :
    runKeys cfg ids [] = ids := rfl

theorem runKeys_cons (cfg : TextioConfig) (ids : IDS) (k : Nat) (ks : List Nat) :
    runKeys cfg ids (k :: ks) = runKeys cfg (processKey cfg ids k).1 ks := rfl

theorem capacity_runKeys (cfg : TextioConfig) (keys : List Nat) : ∀ ids : IDS,
    (runKeys cfg ids keys).capacity = ids.capacity := by
  induction keys with
  | nil => intro ids; rfl
  | cons k ks ih =>
      intro ids
      rw [runKeys_cons, ih, capacity_processKey]

theorem idsInv_runKeys (cfg : TextioConfig) (keys : List Nat) : ∀ ids : IDS,
    0 < ids.capacity → idsInv ids → idsInv (runKeys cfg ids keys) := by
  induction keys with
  | nil => intro ids _ h; exact h
  | cons k ks ih =>
      intro ids hcap h
      rw [runKeys_cons]
      refine ih _ ?_ (idsInv_processKey cfg ids k hcap h)
      rw [capacity_processKey]
      exact hcap

theorem succInsertions_length (cfg : TextioConfig) (keys : List Nat) : ∀ ids : IDS,
    succInsertions cfg ids keys = true →
    (runKeys cfg ids keys).buffer.length = ids.buffer.length + keys.length := by
  induction keys with
  | nil => intro ids _; rfl
  | cons k ks ih =>
      intro ids h
      simp only [succInsertions, Bool.and_eq_true, decide_eq_true_eq] at h
      rw [runKeys_cons, ih _ h.2, h.1]
      simp
      omega

/-- Claim C1: for an IDS of capacity N, after exactly N successful printable
insertions the buffer-full flag is true; a further non-control keystroke
leaves the buffer (hence its length N) unchanged; and at all times the buffer
length never exceeds the capacity while the buffer-full flag holds exactly
when the length equals the capacity, this invariant being preserved by every
keystroke. -/
theorem claim_c1_buffer_capacity (cfg : TextioConfig) (ids : IDS) (raw : Nat)
    (hcap : 0 < ids.capacity) (h : idsInv ids) :
    idsInv (processKey cfg ids raw).1
    ∧ ids.buffer.length ≤ ids.capacity
    ∧ (ids.bufferFull = true ↔ ids.buffer.length = ids.capacity)
    ∧ (ids.buffer.length = ids.capacity → isControlKey cfg raw = false →
        (processKey cfg ids raw).1.buffer = ids.buffer)
    ∧ (∀ keys : List Nat, ids.buffer = [] → succInsertions cfg ids keys = true →
        keys.length = ids.capacity → (runKeys cfg ids keys).bufferFull = true) := by
  obtain ⟨hc, h1, h2⟩ := h
  refine ⟨idsInv_processKey cfg ids raw hcap ⟨hc, h1, h2⟩, h1, h2, ?_, ?_⟩
  · intro hlen hctrl
    rw [processKey_full_noop cfg ids raw hctrl (h2.mpr hlen)]
  · intro keys hempty hsucc hN
    have hrun := succInsertions_length cfg keys ids hsucc
    rw [hempty] at hrun
    simp at hrun
    have hinv := idsInv_runKeys cfg keys ids hcap ⟨hc, h1, h2⟩
    have hcapr := capacity_runKeys cfg keys ids
    exact hinv.2.2.mpr (by rw [hrun, hcapr, hN])

/-- Claim C2: a locked IDS is never mutated by the input routines — the call
returns the raw key code unchanged with the IDS exactly as it was. -/
theorem claim_c2_locked_noop (cfg : TextioConfig) (ids : IDS) (raw : Nat)
    (h : ids.locked = true) :
    processKey cfg ids raw = (ids, raw)
    ∧ timedInput cfg ids (some raw) = (ids, raw) := by
  have h1 : processKey cfg ids raw = (ids, raw) := by
    unfold processKey
    simp [h]
  exact ⟨h1, h1⟩

/-- A sample process-wide configuration used by the witnesses: control keys
15, 56, 30, 31, every glyph one pixel wide, timeout sentinel 300. -/
def cfgW : TextioConfig :=
  { clearKey := 15, backspaceKey := 56, cursorLeftKey := 30, cursorRightKey := 31,
    width := fun _ => 1, timeoutCode := 300 }

/-- A sample freshly created IDS of capacity 1 with a single keymap mapping
raw key 1 to codepoint 81 and raw key 2 to codepoint 53. -/
def idsW0 : IDS :=
  { capacity := 1, startX := 50, buffer := [], cursorIdx := 0, cursorX := 50,
    keymaps := [{ indicator := 65, slots := [81, 53] }], currKeymapIdx := 0,
    timer := 3, locked := false, bufferFull := false, prgmNameFlag := false }

theorem claim_c1_buffer_capacity_witness :
    (runKeys cfgW idsW0 [1]).bufferFull = true :=
  (claim_c1_buffer_capacity cfgW idsW0 1 (by decide) (by decide)).2.2.2.2
    [1] (by decide) (by decide) (by decide)

/-- The sample IDS, locked. -/
def idsWLocked : IDS :=
  { idsW0 with locked := true, buffer := [81], cursorIdx := 1, cursorX := 51 }

theorem claim_c2_locked_noop_witness :
    processKey cfgW idsWLocked 1 = (idsWLocked, 1) :=
  (claim_c2_locked_noop cfgW idsWLocked 1 (by decide)).1

/-- Claim C7: a backspace keystroke with the cursor at buffer start is a
silent no-op; otherwise it removes the codepoint immediately before the
cursor (shifting the trailing content left by one), moves the cursor back by
that character's width, and clears the buffer-full flag. -/
theorem claim_c7_backspace (cfg : TextioConfig) (ids : IDS)
    (hl : ids.locked = false) (hck : cfg.backspaceKey ≠ cfg.clearKey) :
    (ids.cursorIdx = 0 → (processKey cfg ids cfg.backspaceKey).1 = ids)
    ∧ (0 < ids.cursorIdx →
        (processKey cfg ids cfg.backspaceKey).1.buffer
          = ids.buffer.take (ids.cursorIdx - 1) ++ ids.buffer.drop ids.cursorIdx
        ∧ (processKey cfg ids cfg.backspaceKey).1.cursorIdx = ids.cursorIdx - 1
        ∧ (processKey cfg ids cfg.backspaceKey).1.cursorX
          = ids.cursorX - cfg.width (ids.buffer.getD (ids.cursorIdx - 1) 0)
        ∧ (processKey cfg ids cfg.backspaceKey).1.bufferFull = false) := by
  have hp : (processKey cfg ids cfg.backspaceKey).1 = backspaceAction cfg ids := by
    unfold processKey
    simp [hl, hck]
  rw [hp]
  unfold backspaceAction
  constructor
  · intro h0
    rw [if_pos h0]
  · intro hpos
    rw [if_neg (by omega)]
    refine ⟨?_, rfl, rfl, rfl⟩
    show removeAt ids.buffer (ids.cursorIdx - 1) = _
    unfold removeAt
    congr 1
    congr 1
    omega

/-- The sample IDS holding one codepoint with the cursor after it. -/
def idsW1 : IDS :=
  { idsW0 with buffer := [81], cursorIdx := 1, cursorX := 51, bufferFull := true }

theorem claim_c7_backspace_witness :
    (processKey cfgW idsW1 cfgW.backspaceKey).1.buffer = [] ∧
    (processKey cfgW idsW1 cfgW.backspaceKey).1.bufferFull = false :=
  ⟨((claim_c7_backspace cfgW idsW1 (by decide) (by decide)).2 (by decide)).1,
   ((claim_c7_backspace cfgW idsW1 (by decide) (by decide)).2 (by decide)).2.2.2⟩

/-- Claim C5: with the program-name mode flag set, a keystroke decoding to a
numeral is a no-op when the buffer is empty (it would become the first
character) and is inserted normally when the buffer is non-empty. -/
theorem claim_c5_prgm_name (cfg : TextioConfig) (ids : IDS) (raw : Nat)
    (hflag : ids.prgmNameFlag = true) (hl : ids.locked = false)
    (hctrl : isControlKey cfg raw = false)
    (hnum : isNumeral (decodeKey (currentKeymap ids) raw) = true) :
    (ids.buffer = [] → (processKey cfg ids raw).1 = ids)
    ∧ (ids.buffer ≠ [] → ids.bufferFull = false →
        (processKey cfg ids raw).1.buffer
          = insertAt ids.buffer ids.cursorIdx (decodeKey (currentKeymap ids) raw)
        ∧ (processKey cfg ids raw).1.cursorIdx = ids.cursorIdx + 1) := by
  simp only [isControlKey, Bool.or_eq_false_iff, decide_eq_false_iff_not] at hctrl
  obtain ⟨⟨⟨n1, n2⟩, n3⟩, n4⟩ := hctrl
  have hcp : ¬ decodeKey (currentKeymap ids) raw = 0 := by
    simp only [isNumeral, decide_eq_true_eq] at hnum
    omega
  have hp : (processKey cfg ids raw).1
      = insertAction cfg ids (decodeKey (currentKeymap ids) raw) := by
    unfold processKey
    simp [hl, n1, n2, n3, n4, hcp]
  rw [hp]
  constructor
  · intro hemp
    simp [insertAction, hflag, hemp, hnum]
  · intro hne hnf
    unfold insertAction
    rw [if_neg (by simp [hnf]), if_neg (by simp [hne])]
    exact ⟨rfl, rfl⟩

/-- The sample IDS in program-name mode with an empty buffer. -/
def idsWPrgm : IDS :=
  { idsW0 with capacity := 8, prgmNameFlag := true }

/-- The sample IDS in program-name mode holding one letter. -/
def idsWPrgm1 : IDS :=
  { idsWPrgm with buffer := [65], cursorIdx := 1, cursorX := 51 }

theorem claim_c5_prgm_name_witness :
    (processKey cfgW idsWPrgm 2).1 = idsWPrgm ∧
    (processKey cfgW idsWPrgm1 2).1.buffer = [65, 53] :=
  ⟨(claim_c5_prgm_name cfgW idsWPrgm 2 (by decide) (by decide) (by decide)
      (by decide)).1 (by decide),
   by
     have h := ((claim_c5_prgm_name cfgW idsWPrgm1 2 (by decide) (by decide)
       (by decide) (by decide)).2 (by decide) (by decide)).1
     rw [h]
     decide⟩

/-- Embedded from the header documentation of `textio_GetNumKeymaps`: the
number returned is one less than the actual number of keymaps in the IDS. -/
def textio_GetNumKeymaps (ids : IDS) : Nat :=
  ids.keymaps.length - 1

/-- Modelled from the spec: `textio_SetCurrKeymapNum` selects the current
keymap by index. -/
def textio_SetCurrKeymapNum (ids : IDS) (n : Nat) : IDS :=
  { ids with currKeymapIdx := n }

/-- Embedded from the example source `switch_keymaps`: advance to the next
keymap, wrapping to index 0 past the last one. -/
def switch_keymaps (ids : IDS) : IDS :=
  textio_SetCurrKeymapNum ids
    (if ids.currKeymapIdx < textio_GetNumKeymaps ids then ids.currKeymapIdx + 1 else 0)

/-- The keymap-selector invariant of the spec: the current keymap index is
strictly below the number of keymaps stored in the IDS. -/
def kmInv (ids : IDS) : Prop :=
  ids.currKeymapIdx < ids.keymaps.length

instance (ids : IDS) : Decidable (kmInv ids) := by
  unfold kmInv
  infer_instance

theorem kmFields_processKey (cfg : TextioConfig) (ids : IDS) (raw : Nat) :
    (processKey cfg ids raw).1.keymaps = ids.keymaps
    ∧ (processKey cfg ids raw).1.currKeymapIdx = ids.currKeymapIdx := by
  unfold processKey clearAction backspaceAction moveLeftAction moveRightAction insertAction
  repeat' split
  all_goals exact ⟨rfl, rfl⟩

/-- Claim C4: every IDS operation — the input routines, the example's keymap
switcher, an in-range keymap selection, and each editing action — preserves
the invariant that the current keymap index is strictly less than the number
of keymaps stored in the IDS. -/
theorem claim_c4_keymap_index_invariant (cfg : TextioConfig) (ids : IDS)
    (raw : Nat) (ev : Option Nat) (n : Nat) (h : kmInv ids) :
    kmInv (processKey cfg ids raw).1
    ∧ kmInv (timedInput cfg ids ev).1
    ∧ kmInv (switch_keymaps ids)
    ∧ (n < ids.keymaps.length → kmInv (textio_SetCurrKeymapNum ids n))
    ∧ kmInv (clearAction ids)
    ∧ kmInv (backspaceAction cfg ids)
    ∧ kmInv (moveLeftAction cfg ids)
    ∧ kmInv (moveRightAction cfg ids)
    ∧ ∀ cp, kmInv (insertAction cfg ids cp) := by
  have hpk : ∀ r, kmInv (processKey cfg ids r).1 := by
    intro r
    unfold kmInv
    rw [(kmFields_processKey cfg ids r).1, (kmFields_processKey cfg ids r).2]
    exact h
  refine ⟨hpk raw, ?_, ?_, ?_, ?_, ?_, ?_, ?_, ?_⟩
  · cases ev with
    | some r => exact hpk r
    | none => exact h
  · unfold kmInv switch_keymaps textio_SetCurrKeymapNum textio_GetNumKeymaps at *
    split <;> simp <;> omega
  · intro hn
    exact hn
  · exact h
  · unfold kmInv backspaceAction at *
    split
    · exact h
    · exact h
  · unfold kmInv moveLeftAction at *
    split
    · exact h
    · exact h
  · unfold kmInv moveRightAction at *
    split
    · exact h
    · exact h
  · intro cp
    unfold kmInv insertAction at *
    split
    · exact h
    · split
      · exact h
      · exact h

theorem claim_c4_keymap_index_invariant_witness :
    kmInv (switch_keymaps idsW0) ∧ kmInv (textio_SetCurrKeymapNum idsW0 0) :=
  ⟨(claim_c4_keymap_index_invariant cfgW idsW0 1 none 0 (by decide)).2.2.1,
   (claim_c4_keymap_index_invariant cfgW idsW0 1 none 0 (by decide)).2.2.2.1
     (by decide)⟩

/-- Iterated no-keypress seconds of `textio_TimedInput`: the IDS after `n`
one-second ticks, paired with the key code returned by the `n`-th call (0 for
`n = 0`). -/
def runTimed (cfg : TextioConfig) (ids : IDS) : Nat → IDS × Nat
  | 0 => (ids, 0)
  | n + 1 => timedNoKey cfg (runTimed cfg ids n).1

theorem runTimed_state (cfg : TextioConfig) (ids : IDS) (n : Nat) :
    (runTimed cfg ids n).1 = { ids with timer := ids.timer - n } := by
  induction n with
  | zero => rfl
  | succ m ih =>
      show (timedNoKey cfg (runTimed cfg ids m).1).1 = _
      rw [ih]
      unfold timedNoKey
      simp [Nat.sub_sub]

theorem runTimed_key (cfg : TextioConfig) (ids : IDS) (n : Nat) :
    (runTimed cfg ids (n + 1)).2
      = if ids.timer - (n + 1) = 0 then cfg.timeoutCode else 0 := by
  show (timedNoKey cfg (runTimed cfg ids n).1).2 = _
  rw [runTimed_state]
  unfold timedNoKey
  simp [Nat.sub_sub]

/-- Claim C6: with the countdown timer set to `T` seconds and no keypress,
`textio_TimedInput` returns the timeout sentinel exactly on the `T`-th
one-second tick and never before, and the expiring call performs no edit of
the buffer or cursor. -/
theorem claim_c6_timed_timeout (cfg : TextioConfig) (ids : IDS) (T : Nat)
    (hT : ids.timer = T) (hpos : 0 < T) (hsent : cfg.timeoutCode ≠ 0) :
    (∀ n, 0 < n → n < T → (runTimed cfg ids n).2 ≠ cfg.timeoutCode)
    ∧ (runTimed cfg ids T).2 = cfg.timeoutCode
    ∧ (runTimed cfg ids T).1.buffer = ids.buffer
    ∧ (runTimed cfg ids T).1.cursorIdx = ids.cursorIdx
    ∧ (runTimed cfg ids T).1.cursorX = ids.cursorX := by
  refine ⟨?_, ?_, ?_, ?_, ?_⟩
  · intro n hn hnT
    obtain ⟨m, rfl⟩ : ∃ m, n = m + 1 := ⟨n - 1, by omega⟩
    rw [runTimed_key, hT, if_neg (by omega)]
    exact fun he => hsent he.symm
  · obtain ⟨m, rfl⟩ : ∃ m, T = m + 1 := ⟨T - 1, by omega⟩
    rw [runTimed_key, hT, if_pos (by omega)]
  · rw [runTimed_state]
  · rw [runTimed_state]
  · rw [runTimed_state]

theorem claim_c6_timed_timeout_witness :
    (runTimed cfgW idsW0 3).2 = cfgW.timeoutCode
    ∧ (runTimed cfgW idsW0 3).1.buffer = idsW0.buffer :=
  ⟨(claim_c6_timed_timeout cfgW idsW0 3 (by decide) (by decide) (by decide)).2.1,
   (claim_c6_timed_timeout cfgW idsW0 3 (by decide) (by decide) (by decide)).2.2.1⟩

/-- Embedded from the header enumeration `textio_print_format_options_t`:
left-margin-flush printing. -/
def TEXTIOC_PRINT_LEFT_MARGIN_FLUSH : Nat := 1

/-- Embedded from the header enumeration `textio_print_format_options_t`:
centered printing. -/
def TEXTIOC_PRINT_CENTERED : Nat := 2

/-- Embedded from the header enumeration `textio_print_format_options_t`:
right-margin-flush printing. -/
def TEXTIOC_PRINT_RIGHT_MARGIN_FLUSH : Nat := 3

/-- Modelled from the spec: `textio_SetPrintFormat` — an in-range
justification code (1..3) is stored and the call succeeds; an out-of-range
code is rejected with a boolean failure and the prior format is retained.
The result pairs the returned boolean with the format state after the call,
given the format state `cur` before it. -/
def textio_SetPrintFormat (format : Nat) (cur : Nat) : Bool × Nat :=
  if TEXTIOC_PRINT_LEFT_MARGIN_FLUSH ≤ format
      ∧ format ≤ TEXTIOC_PRINT_RIGHT_MARGIN_FLUSH then
    (true, format)
  else
    (false, cur)

/-- Claim C8: `textio_SetPrintFormat` rejects any value outside the
justification enumeration 1..3, returning false with the prior format
retained, and accepts any in-range value, returning true with the format set
to that value. -/
theorem claim_c8_set_print_format (format cur : Nat) :
    ((format < TEXTIOC_PRINT_LEFT_MARGIN_FLUSH
        ∨ TEXTIOC_PRINT_RIGHT_MARGIN_FLUSH < format) →
      textio_SetPrintFormat format cur = (false, cur))
    ∧ (TEXTIOC_PRINT_LEFT_MARGIN_FLUSH ≤ format →
        format ≤ TEXTIOC_PRINT_RIGHT_MARGIN_FLUSH →
        textio_SetPrintFormat format cur = (true, format)) := by
  unfold textio_SetPrintFormat TEXTIOC_PRINT_LEFT_MARGIN_FLUSH
    TEXTIOC_PRINT_RIGHT_MARGIN_FLUSH at *
  constructor
  · intro h
    rw [if_neg (by omega)]
  · intro h1 h2
    rw [if_pos (by omega)]

theorem claim_c8_set_print_format_witness :
    textio_SetPrintFormat 5 2 = (false, 2)
    ∧ textio_SetPrintFormat 3 2 = (true, 3) :=
  ⟨(claim_c8_set_print_format 5 2).1 (by decide),
   (claim_c8_set_print_format 3 2).2 (by decide) (by decide)⟩

/-- Modelled from the spec: `textio_ConvertProgramAppvarName_TIOS` converts,
in place, every occurrence of the caller-configured theta codepoint in the
name to the native TI-OS theta codepoint 0x5B = 91. -/
def textio_ConvertProgramAppvarName_TIOS (theta : Nat) (name : List Nat) :
    List Nat :=
  name.map fun c => if c = theta then 91 else c

/-- Modelled from the spec: `textio_ConvertProgramAppvarName_TextIOC`
converts, in place, every occurrence of the native TI-OS theta codepoint
0x5B = 91 in the name to the caller-configured theta codepoint. -/
def textio_ConvertProgramAppvarName_TextIOC (theta : Nat) (name : List Nat) :
    List Nat :=
  name.map fun c => if c = 91 then theta else c

theorem getD_map (f : Nat → Nat) (l : List Nat) (i : Nat) (hi : i < l.length) :
    (l.map f).getD i 0 = f (l.getD i 0) := by
  induction l generalizing i with
  | nil => simp at hi
  | cons a t ih =>
      cases i with
      | zero => rfl
      | succ j =>
          simp only [List.map_cons, List.getD_cons_succ]
          exact ih j (by simpa using hi)

theorem convert_roundtrip (theta : Nat) : ∀ name : List Nat, 91 ∉ name →
    textio_ConvertProgramAppvarName_TextIOC theta
      (textio_ConvertProgramAppvarName_TIOS theta name) = name := by
  intro name
  induction name with
  | nil => intro _; rfl
  | cons a t ih =>
      intro h
      rw [List.mem_cons, not_or] at h
      show List.map _ (List.map _ (a :: t)) = a :: t
      simp only [List.map_cons, List.cons.injEq]
      constructor
      · by_cases ha : a = theta
        · simp [ha]
        · have h91 : ¬ a = 91 := fun he => h.1 he.symm
          simp [ha, h91]
      · exact ih h.2

/-- Claim C9: the TIOS conversion rewrites exactly the occurrences of the
configured theta codepoint to 91 = 0x5B, the TextIOC conversion rewrites
exactly the occurrences of 91 to the configured theta codepoint, both keep
the name's length, and on a name free of the byte 0x5B the TIOS conversion
followed by the TextIOC conversion restores the original name. -/
theorem claim_c9_theta_conversion (theta : Nat) (name : List Nat) :
    (textio_ConvertProgramAppvarName_TIOS theta name).length = name.length
    ∧ (∀ i, i < name.length →
        (textio_ConvertProgramAppvarName_TIOS theta name).getD i 0
          = if name.getD i 0 = theta then 91 else name.getD i 0)
    ∧ (textio_ConvertProgramAppvarName_TextIOC theta name).length = name.length
    ∧ (∀ i, i < name.length →
        (textio_ConvertProgramAppvarName_TextIOC theta name).getD i 0
          = if name.getD i 0 = 91 then theta else name.getD i 0)
    ∧ (91 ∉ name →
        textio_ConvertProgramAppvarName_TextIOC theta
          (textio_ConvertProgramAppvarName_TIOS theta name) = name) := by
  refine ⟨?_, ?_, ?_, ?_, convert_roundtrip theta name⟩
  · simp [textio_ConvertProgramAppvarName_TIOS]
  · intro i hi
    exact getD_map _ name i hi
  · simp [textio_ConvertProgramAppvarName_TextIOC]
  · intro i hi
    exact getD_map _ name i hi

theorem claim_c9_theta_conversion_witness :
    textio_ConvertProgramAppvarName_TextIOC 255
      (textio_ConvertProgramAppvarName_TIOS 255 [255, 65, 66]) = [255, 65, 66] :=
  (claim_c9_theta_conversion 255 [255, 65, 66]).2.2.2.2 (by decide)

/-- The pixel width of a line: the sum of the backend-reported widths of its
codepoints. -/
def lineWidth (width : Nat → Nat) (line : List Nat) : Nat :=
  (line.map width).sum

/-- Modelled from the spec: the x-position at which `textio_PrintText` starts
a line of pixel width `W` in a window at `winX` of width `winWidth`, under
the active justification mode — the window's left edge for left-flush,
`(winWidth - W) / 2` past it for centered, `winWidth - W` past it for
right-flush. -/
def justifyX (fmt winX winWidth W : Nat) : Nat :=
  if fmt = TEXTIOC_PRINT_CENTERED then winX + (winWidth - W) / 2
  else if fmt = TEXTIOC_PRINT_RIGHT_MARGIN_FLUSH then winX + (winWidth - W)
  else winX

/-- Modelled from the spec: the sequence of line start x-positions that
`textio_PrintText` computes for its lines. -/
def printTextPositions (fmt winX winWidth : Nat) (width : Nat → Nat)
    (lines : List (List Nat)) : List Nat :=
  lines.map fun l => justifyX fmt winX winWidth (lineWidth width l)

/-- Claim C3: for every line of pixel width `W` printed into a text window of
width `winWidth ≥ W`, the x-offset of the line relative to the window's left
edge is 0 in left-flush mode, `(winWidth - W) / 2` (integer division) in
centered mode, and `winWidth - W` in right-flush mode. -/
theorem claim_c3_justification_offsets (fmt winX winWidth : Nat)
    (width : Nat → Nat) (lines : List (List Nat)) (l : List Nat)
    (hl : l ∈ lines) (_hW : lineWidth width l ≤ winWidth) :
    justifyX fmt winX winWidth (lineWidth width l)
        ∈ printTextPositions fmt winX winWidth width lines
    ∧ (fmt = TEXTIOC_PRINT_LEFT_MARGIN_FLUSH →
        justifyX fmt winX winWidth (lineWidth width l) - winX = 0)
    ∧ (fmt = TEXTIOC_PRINT_CENTERED →
        justifyX fmt winX winWidth (lineWidth width l) - winX
          = (winWidth - lineWidth width l) / 2)
    ∧ (fmt = TEXTIOC_PRINT_RIGHT_MARGIN_FLUSH →
        justifyX fmt winX winWidth (lineWidth width l) - winX
          = winWidth - lineWidth width l) := by
  refine ⟨List.mem_map_of_mem _ hl, ?_, ?_, ?_⟩
  · intro hf
    rw [hf]
    simp [justifyX, TEXTIOC_PRINT_LEFT_MARGIN_FLUSH, TEXTIOC_PRINT_CENTERED,
      TEXTIOC_PRINT_RIGHT_MARGIN_FLUSH]
  · intro hf
    rw [hf]
    simp [justifyX, TEXTIOC_PRINT_CENTERED]
  · intro hf
    rw [hf]
    simp [justifyX, TEXTIOC_PRINT_CENTERED, TEXTIOC_PRINT_RIGHT_MARGIN_FLUSH]

theorem claim_c3_justification_offsets_witness :
    justifyX 2 7 10 (lineWidth (fun _ => 3) [5]) - 7
      = (10 - lineWidth (fun _ => 3) [5]) / 2 :=
  (claim_c3_justification_offsets 2 7 10 (fun _ => 3) [[5]] [5]
    (by decide) (by decide)).2.2.1 (by decide)

/-- Embedded from the assembly source of `_isdigit`: the result is 0 whenever
bit 7 of the argument's low byte is set, and otherwise the character-class
table entry for the argument masked with 1.  `maptab` is the external
`__maptab` character-class table. -/
def isdigit (maptab : Nat → Nat) (c : Nat) : Nat :=
  if 128 ≤ c % 256 then 0 else maptab c &&& 1

/-- Claim C10: `isdigit` returns 0 for every argument whose low byte has bit
7 set; for arguments below 0x80 it returns the table entry masked with 1; in
particular the codepoint 255 (a theta stand-in) is never a numeral. -/
theorem claim_c10_isdigit (maptab : Nat → Nat) (c : Nat) :
    (128 ≤ c % 256 → isdigit maptab c = 0)
    ∧ (c < 128 → isdigit maptab c = maptab c &&& 1)
    ∧ isdigit maptab 255 = 0 := by
  refine ⟨?_, ?_, ?_⟩
  · intro h
    unfold isdigit
    rw [if_pos h]
  · intro h
    unfold isdigit
    rw [Nat.mod_eq_of_lt (by omega), if_neg (by omega)]
  · unfold isdigit
    norm_num

theorem claim_c10_isdigit_witness :
    isdigit (fun _ => 3) 200 = 0 ∧ isdigit (fun _ => 3) 57 = 1 :=
  ⟨(claim_c10_isdigit (fun _ => 3) 200).1 (by decide),
   by
     rw [(claim_c10_isdigit (fun _ => 3) 57).2.1 (by decide)]
     decide⟩

end TextIOC
